import Mathlib

/-!
Shallow embedding of the daily-summary reduction engine of the swell-recap
repository (`app/api/overview/route.ts`, with near-duplicates in
`app/api/snapshot/route.ts`): numeric cleaning (`numArr`, `clean`), `median`,
`mostCommonDirection`, tide turning-point detection (`tideEventsForDate`,
`buildTideSummary`), the daily builder (`buildDailyFromHourly`) and the
reconciler (`mergeSnapshotAndBuilt`).

Conventions of the embedding:
* JS numbers are embedded as `ℚ`; `NaN` and `null` samples are folded into
  `none` where the surrounding code has already routed them there, and a
  dedicated `JVal`/`JNum` domain (with explicit infinities and `NaN`) is used
  for the raw-array cleaning functions, where the finite/non-finite
  distinction is observable.
* `Math.round x` is `⌊x + 1/2⌋` (JS rounds half toward +∞) and
  `Number(x.toFixed(3))` is `⌊1000 x + 1/2⌋ / 1000` (ECMA `toFixed` picks the
  larger candidate integer on ties), both exact on `ℚ`.
* `t.startsWith(p)` is prefix testing on the character list of the string,
  and `a.localeCompare(b) ≤ 0` is code-point lexicographic comparison.
* `Array.prototype.sort` is stable (ES2019), hence `List.mergeSort`.
* `Object.keys` on a record keyed by non-negative integers < 2^32 yields the
  keys in ascending numeric order (ES2015 integer-index order); direction
  bin keys always lie in {0, 10, …, 360}, so the bin iteration is embedded
  as a fold over the ascending list of those keys that are present.
-/

namespace SwellRecap

/-- JS `Math.round`: round half toward positive infinity. -/
def jsRound (x : ℚ) : ℤ := ⌊x + 1/2⌋

/-- JS `Number(x.toFixed(3))`: round to 3 decimal places, half toward +∞. -/
def fix3 (x : ℚ) : ℚ := (jsRound (x * 1000) : ℚ) / 1000

theorem jsRound_mono {x y : ℚ} (h : x ≤ y) : jsRound x ≤ jsRound y :=
  Int.floor_le_floor (by linarith)

theorem fix3_mono {x y : ℚ} (h : x ≤ y) : fix3 x ≤ fix3 y := by
  unfold fix3
  have h1 := @jsRound_mono (x * 1000) (y * 1000) (by linarith)
  have h2 : ((jsRound (x * 1000) : ℤ) : ℚ) ≤ ((jsRound (y * 1000) : ℤ) : ℚ) := by
    exact_mod_cast h1
  have h1000 : (0:ℚ) < 1000 := by norm_num
  rw [div_le_div_iff₀ h1000 h1000]
  nlinarith [h2]

/-! ### Raw-sample domain for the cleaning functions (`numArr`, `clean`)

A raw JSON array entry is `null`/`undefined`, `NaN` (also any non-numeric
value, since `Number(v)` turns those into `NaN`), or a JS number, which may
be `±Infinity`.  Only `isNaN` is ever applied to non-finite values in the
source, so infinities need no arithmetic here. -/

/-- A JS number that is not `NaN`: finite, `+Infinity`, or `-Infinity`. -/
inductive JNum where
  | fin (q : ℚ)
  | pinf
  | ninf
deriving DecidableEq, Repr

/-- `true` exactly for finite JS numbers. -/
def JNum.isFinite : JNum → Bool
  | .fin _ => true
  | _ => false

/-- A raw array entry as seen by `numArr`. -/
inductive JVal where
  | jnull
  | jnan
  | jnum (x : JNum)
deriving DecidableEq, Repr

/-- `numArr` (route.ts): `arr.map(v => (v == null || isNaN(Number(v)) ? null : Number(v)))`.
`null`/`undefined` and `NaN` become `null`; numbers (including `±Infinity`,
for which `isNaN` is `false`) are kept. -/
def numArr (arr : List JVal) : List (Option JNum) :=
  arr.map fun v =>
    match v with
    | .jnull => none
    | .jnan => none
    | .jnum x => some x

/-- `clean` (route.ts): `arr.filter(v => v != null && !isNaN(Number(v)))`,
applied to `numArr` output, where no `NaN` remains. -/
def clean (arr : List (Option JNum)) : List JNum :=
  arr.filterMap id

/-! ### `median` -/

/-- `median` (route.ts): sort ascending (stable sort, comparator `a - b`),
middle element for odd length, mean of the two middle elements for even
length, `null` for the empty array. -/
def median (values : List ℚ) : Option ℚ :=
  if values.length = 0 then none
  else
    let v := values.mergeSort fun a b => decide (a ≤ b)
    let mid := values.length / 2
    if values.length % 2 = 1 then some (v.getD mid 0)
    else some ((v.getD (mid - 1) 0 + v.getD mid 0) / 2)

/-! ### Direction binning (`mostCommonDirection`) -/

/-- JS `%` on numbers is truncated remainder (sign of the dividend):
`d % 360 = d - 360 * trunc (d / 360)`. -/
def jsMod360 (d : ℚ) : ℚ :=
  d - 360 * ((if 0 ≤ d then ⌊d / 360⌋ else ⌈d / 360⌉ : ℤ) : ℚ)

/-- The normalization step of `mostCommonDirection`:
`let dd = d % 360; if (dd < 0) dd += 360; return Math.round(dd)`.
Note the rounding happens after the modulus, so the result ranges over the
closed interval `[0, 360]` (e.g. `d = 359.6` normalizes to `360`). -/
def normDir (d : ℚ) : ℤ :=
  jsRound (if jsMod360 d < 0 then jsMod360 d + 360 else jsMod360 d)

/-- Bin key of a normalized bearing: `Math.round(d / 10) * 10`. -/
def binOf (n : ℤ) : ℤ := jsRound ((n : ℚ) / 10) * 10

/-- The list of bin keys of the cleaned, normalized bearings. -/
def binList (degs : List (Option ℚ)) : List ℤ :=
  ((degs.filterMap id).map normDir).map binOf

/-- One step of the best-bin scan: `if (cnt > bestCount) { best = k; bestCount = cnt }`. -/
def bestStep (cnt : ℤ → ℤ) (best : Option ℤ × ℤ) (k : ℤ) : Option ℤ × ℤ :=
  if best.2 < cnt k then (some k, cnt k) else best

/-- The bin keys present in `bins`, in ascending order — the `Object.keys`
iteration of the JS bin record, whose keys are the integer strings
`0, 10, …, 360` and therefore iterate in ascending numeric order. -/
def binKeys (bins : List ℤ) : List ℤ :=
  ((List.range 37).map fun i : ℕ => (10 : ℤ) * (i : ℤ)).filter
    fun k => bins.count k != 0

/-- The best-bin loop of `mostCommonDirection`: start from
`best = null, bestCount = -1` and replace only on a strictly greater
count. -/
def bestBin (bins : List ℤ) : Option ℤ :=
  ((binKeys bins).foldl (bestStep fun k => (bins.count k : ℤ)) (none, -1)).1

/-- `mostCommonDirection` (route.ts): drop `null`/`NaN` entries, normalize,
bin into 10°-wide bins, and return the key of the fullest bin, iterating the
bins in ascending key order and replacing the current best only on a
strictly greater count. -/
def mostCommonDirection (degs : List (Option ℚ)) : Option ℤ :=
  let cleanL := (degs.filterMap id).map normDir
  if cleanL.isEmpty then none
  else bestBin (cleanL.map binOf)

/-! ### Strings: prefix test and `localeCompare` ordering -/

/-- JS `t.startsWith(p)`: `p` is a prefix of `t` (character-wise). -/
def jsStartsWith (t p : String) : Bool :=
  p.data.isPrefixOf t.data

/-- Code-point lexicographic `≤` on character lists. -/
def charListLe : List Char → List Char → Bool
  | [], _ => true
  | _ :: _, [] => false
  | a :: as, b :: bs => if a < b then true else if b < a then false else charListLe as bs

/-- JS `a.localeCompare(b) <= 0`, for the ISO timestamps sorted here:
code-point lexicographic comparison. -/
def jsStrLe (a b : String) : Bool := charListLe a.data b.data

/-! ### Tide extrema -/

/-- One detected tide event: `{ time, height }`. -/
structure TideEvent where
  time : String
  height : ℚ
deriving DecidableEq, Repr

/-- The bundle returned by `buildTideSummary`. -/
structure TideBundle where
  highs : List TideEvent
  lows : List TideEvent
  tideHigh : Option ℚ
  tideHighTime : Option String
  tideLow : Option ℚ
  tideLowTime : Option String
deriving DecidableEq, Repr

/-- `highs.reduce((p, c) => (c.height > p.height ? c : p), highs[0])` for a
non-empty list, `null` otherwise (first maximum wins ties). -/
def pickMax : List TideEvent → Option TideEvent
  | [] => none
  | e :: es => some ((e :: es).foldl (fun p c => if p.height < c.height then c else p) e)

/-- `lows.reduce((p, c) => (c.height < p.height ? c : p), lows[0])` for a
non-empty list, `null` otherwise (first minimum wins ties). -/
def pickMin : List TideEvent → Option TideEvent
  | [] => none
  | e :: es => some ((e :: es).foldl (fun p c => if c.height < p.height then c else p) e)

/-- `buildTideSummary` (route.ts): round all heights to 3 decimals and derive
the four convenience fields from the most extreme event of each list. -/
def buildTideSummary (highs lows : List TideEvent) : TideBundle :=
  let hi := pickMax highs
  let lo := pickMin lows
  { highs := highs.map fun e => ⟨e.time, fix3 e.height⟩
    lows := lows.map fun e => ⟨e.time, fix3 e.height⟩
    tideHigh := hi.map fun e => fix3 e.height
    tideHighTime := hi.map fun e => e.time
    tideLow := lo.map fun e => fix3 e.height
    tideLowTime := lo.map fun e => e.time }

/-- One step of the interior local-maximum scan of `tideEventsForDate`: index
`i` (for `i = 1 .. times.length - 2`) yields an event when its timestamp lies
on the target date, all three heights `i-1, i, i+1` are non-null, and
`h[i] > h[i-1] && h[i] > h[i+1]`. -/
def scanHighBody (times : List String) (heights : List (Option ℚ)) (pfx : String)
    (i : ℕ) : Option TideEvent :=
  if 1 ≤ i ∧ i + 1 < times.length then
    if jsStartsWith (times.getD i "") pfx then
      match heights.getD (i-1) none, heights.getD i none, heights.getD (i+1) none with
      | some h0, some h1, some h2 =>
          if h0 < h1 ∧ h2 < h1 then some ⟨times.getD i "", h1⟩ else none
      | _, _, _ => none
    else none
  else none

/-- One step of the interior local-minimum scan (symmetric to
`scanHighBody`). -/
def scanLowBody (times : List String) (heights : List (Option ℚ)) (pfx : String)
    (i : ℕ) : Option TideEvent :=
  if 1 ≤ i ∧ i + 1 < times.length then
    if jsStartsWith (times.getD i "") pfx then
      match heights.getD (i-1) none, heights.getD i none, heights.getD (i+1) none with
      | some h0, some h1, some h2 =>
          if h1 < h0 ∧ h1 < h2 then some ⟨times.getD i "", h1⟩ else none
      | _, _, _ => none
    else none
  else none

/-- The interior local-maximum scan of `tideEventsForDate`. -/
def scanHighs (times : List String) (heights : List (Option ℚ)) (pfx : String) :
    List TideEvent :=
  (List.range times.length).filterMap (scanHighBody times heights pfx)

/-- The interior local-minimum scan of `tideEventsForDate`. -/
def scanLows (times : List String) (heights : List (Option ℚ)) (pfx : String) :
    List TideEvent :=
  (List.range times.length).filterMap (scanLowBody times heights pfx)

/-- The (time, height) pairs of the target date with non-null height, in
series order — the candidates of the fallback scan. -/
def dayPairs (times : List String) (heights : List (Option ℚ)) (pfx : String) :
    List (String × ℚ) :=
  (List.range times.length).filterMap fun i =>
    if jsStartsWith (times.getD i "") pfx then
      (heights.getD i none).map fun h => (times.getD i "", h)
    else none

/-- Fallback maximum: `if (!maxEvt || h > maxEvt.height) maxEvt = {t, h}`
(first occurrence wins ties). -/
def foldMax (ps : List (String × ℚ)) : Option TideEvent :=
  ps.foldl
    (fun acc p =>
      match acc with
      | none => some ⟨p.1, p.2⟩
      | some m => if m.height < p.2 then some ⟨p.1, p.2⟩ else acc)
    none

/-- Fallback minimum: `if (!minEvt || h < minEvt.height) minEvt = {t, h}`
(first occurrence wins ties). -/
def foldMin (ps : List (String × ℚ)) : Option TideEvent :=
  ps.foldl
    (fun acc p =>
      match acc with
      | none => some ⟨p.1, p.2⟩
      | some m => if p.2 < m.height then some ⟨p.1, p.2⟩ else acc)
    none

/-- `tideEventsForDate` (route.ts): scan the full series for interior local
extrema whose timestamp lies on `date`; if both candidate sets are non-empty,
keep the top 2 highs (by height, descending) and bottom 2 lows (ascending)
and re-sort each by time; otherwise fall back to the single day-restricted
maximum and minimum samples. -/
def tideEventsForDate (times : List String) (heights : List (Option ℚ))
    (date : String) : TideBundle :=
  let pfx := date ++ "T"
  let highs := scanHighs times heights pfx
  let lows := scanLows times heights pfx
  if highs.isEmpty || lows.isEmpty then
    let maxEvt := foldMax (dayPairs times heights pfx)
    let minEvt := foldMin (dayPairs times heights pfx)
    buildTideSummary maxEvt.toList minEvt.toList
  else
    let topHighs :=
      ((highs.mergeSort fun a b => decide (b.height ≤ a.height)).take 2).mergeSort
        fun a b => jsStrLe a.time b.time
    let topLows :=
      ((lows.mergeSort fun a b => decide (a.height ≤ b.height)).take 2).mergeSort
        fun a b => jsStrLe a.time b.time
    buildTideSummary topHighs topLows

/-! ### Daily summary builder -/

/-- One ranked swell train: `{height, period, direction}`, each nullable. -/
structure SwellComponent where
  height : Option ℚ
  period : Option ℚ
  direction : Option ℚ
deriving DecidableEq, Repr

/-- The three swell tiers of a summary. -/
structure Swell3 where
  primary : Option SwellComponent
  secondary : Option SwellComponent
  tertiary : Option SwellComponent
deriving DecidableEq, Repr

/-- `wind: { speed, direction }`. -/
structure Wind where
  speed : Option ℚ
  direction : Option ℚ
deriving DecidableEq, Repr

/-- `tides: { highs, lows }` of a summary. -/
structure TidesPair where
  highs : List TideEvent
  lows : List TideEvent
deriving DecidableEq, Repr

/-- The `DailySummary` value built per day (route.ts). -/
structure DailySummary where
  date : String
  swell : Swell3
  waveHeight : Option ℚ
  wind : Wind
  waterTemperature : Option ℚ
  tideHigh : Option ℚ
  tideHighTime : Option String
  tideLow : Option ℚ
  tideLowTime : Option String
  tides : TidesPair
deriving DecidableEq, Repr

/-- An hourly bundle as consumed by `buildDailyFromHourly`.  `time = none`
models a missing or non-array `hourly.time`; a `none` channel models a
missing or non-array channel (for which `numArr` yields `[]`).  Channel
entries are finite numbers or `null`/`NaN` (folded to `none`), per the §3
data-model invariant. -/
structure Hourly where
  time : Option (List String) := none
  swell_wave_height : Option (List (Option ℚ)) := none
  swell_wave_period : Option (List (Option ℚ)) := none
  swell_wave_direction : Option (List (Option ℚ)) := none
  secondary_swell_wave_height : Option (List (Option ℚ)) := none
  secondary_swell_wave_period : Option (List (Option ℚ)) := none
  secondary_swell_wave_direction : Option (List (Option ℚ)) := none
  tertiary_swell_wave_height : Option (List (Option ℚ)) := none
  tertiary_swell_wave_period : Option (List (Option ℚ)) := none
  tertiary_swell_wave_direction : Option (List (Option ℚ)) := none
  wave_height : Option (List (Option ℚ)) := none
  wind_speed_10m : Option (List (Option ℚ)) := none
  wind_direction_10m : Option (List (Option ℚ)) := none
  sea_surface_temperature : Option (List (Option ℚ)) := none
  sea_level_height_msl : Option (List (Option ℚ)) := none

/-- `numArr` on a channel that may be missing (`!Array.isArray(arr) → []`);
on the finite-or-null entry domain the per-entry mapping is the identity. -/
def numArrQ (o : Option (List (Option ℚ))) : List (Option ℚ) := o.getD []

/-- `slice`: `idxs.map(i => i < arr.length ? arr[i] : null)`. -/
def sliceIdx (idxs : List ℕ) (arr : List (Option ℚ)) : List (Option ℚ) :=
  idxs.map fun i => if i < arr.length then arr.getD i none else none

/-- `clean` on sliced channel values: `v != null && !isNaN(Number(v))`;
on the finite-or-null domain this keeps exactly the non-null entries. -/
def cleanQ (arr : List (Option ℚ)) : List ℚ := arr.filterMap id

/-- A swell tier of the builder: emitted when any of the three channels has a
clean sample for the day, otherwise `null`. -/
def buildComponent (hs ps ds : List (Option ℚ)) : Option SwellComponent :=
  if !(cleanQ hs).isEmpty || !(cleanQ ps).isEmpty || !(cleanQ ds).isEmpty then
    some ⟨median (cleanQ hs), median (cleanQ ps),
          (mostCommonDirection ds).map fun k => (k : ℚ)⟩
  else none

/-- `buildDailyFromHourly` (route.ts): `null` when `hourly.time` is missing
or no timestamp lies on `date`; otherwise summarize each day-sliced channel
(medians, direction mode) and delegate tides to `tideEventsForDate` on the
full, unsliced sea-level series. -/
def buildDailyFromHourly (date : String) (hourly : Hourly) : Option DailySummary :=
  match hourly.time with
  | none => none
  | some times =>
    let pfx := date ++ "T"
    let idxs := (List.range times.length).filter fun i =>
      jsStartsWith (times.getD i "") pfx
    if idxs.isEmpty then none
    else
      let pH := sliceIdx idxs (numArrQ hourly.swell_wave_height)
      let pP := sliceIdx idxs (numArrQ hourly.swell_wave_period)
      let pD := sliceIdx idxs (numArrQ hourly.swell_wave_direction)
      let sH := sliceIdx idxs (numArrQ hourly.secondary_swell_wave_height)
      let sP := sliceIdx idxs (numArrQ hourly.secondary_swell_wave_period)
      let sD := sliceIdx idxs (numArrQ hourly.secondary_swell_wave_direction)
      let tH := sliceIdx idxs (numArrQ hourly.tertiary_swell_wave_height)
      let tP := sliceIdx idxs (numArrQ hourly.tertiary_swell_wave_period)
      let tD := sliceIdx idxs (numArrQ hourly.tertiary_swell_wave_direction)
      let waveH := sliceIdx idxs (numArrQ hourly.wave_height)
      let windS := sliceIdx idxs (numArrQ hourly.wind_speed_10m)
      let windD := sliceIdx idxs (numArrQ hourly.wind_direction_10m)
      let waterT := sliceIdx idxs (numArrQ hourly.sea_surface_temperature)
      let seaLevelFull := numArrQ hourly.sea_level_height_msl
      let tide := tideEventsForDate times seaLevelFull date
      some
        { date := date
          swell :=
            { primary := buildComponent pH pP pD
              secondary := buildComponent sH sP sD
              tertiary := buildComponent tH tP tD }
          waveHeight := median (cleanQ waveH)
          wind := ⟨median (cleanQ windS), (mostCommonDirection windD).map fun k => (k : ℚ)⟩
          waterTemperature := median (cleanQ waterT)
          tideHigh := tide.tideHigh
          tideHighTime := tide.tideHighTime
          tideLow := tide.tideLow
          tideLowTime := tide.tideLowTime
          tides := ⟨tide.highs, tide.lows⟩ }

/-! ### Reconciler (`mergeSnapshotAndBuilt`)

The persisted snapshot is dynamic JSON; `pickSummary(snapshot, "a.b.c")`
walks `snapshot.summary` and yields `null` whenever a step is missing.  The
embedding mirrors each optional step with an `Option` layer and `pickSummary`
with a chain of `Option.bind`. -/

/-- The optional `summary.swell` object of a persisted snapshot. -/
structure PSwell3 where
  primary : Option SwellComponent := none
  secondary : Option SwellComponent := none
  tertiary : Option SwellComponent := none
deriving DecidableEq, Repr

/-- The optional `summary.tides` object of a persisted snapshot: either
array may itself be absent. -/
structure PTides where
  highs : Option (List TideEvent) := none
  lows : Option (List TideEvent) := none
deriving DecidableEq, Repr

/-- A persisted `summary` object (possibly partial / older-shaped). -/
structure PSummary where
  swell : Option PSwell3 := none
  waveHeight : Option ℚ := none
  wind : Option Wind := none
  waterTemperature : Option ℚ := none
  tideHigh : Option ℚ := none
  tideHighTime : Option String := none
  tideLow : Option ℚ := none
  tideLowTime : Option String := none
  tides : Option PTides := none
deriving DecidableEq, Repr

/-- A persisted snapshot: optional `date` and optional `summary`. -/
structure Snapshot where
  date : Option String := none
  summary : Option PSummary := none
deriving DecidableEq, Repr

/-- The per-tier merge helper `sp` of `mergeSnapshotAndBuilt`: if any of the
persisted component's three leaves is non-null, take the persisted leaves
(missing ones become `null`); otherwise fall back to the built component. -/
def mergeComponent (summ : Option PSummary) (getP : PSwell3 → Option SwellComponent)
    (built : Option DailySummary) (getB : Swell3 → Option SwellComponent) :
    Option SwellComponent :=
  let comp := (summ.bind fun s => s.swell).bind getP
  let h := comp.bind fun c => c.height
  let p := comp.bind fun c => c.period
  let d := comp.bind fun c => c.direction
  if h.isSome || p.isSome || d.isSome then some ⟨h, p, d⟩
  else built.bind fun b => getB b.swell

/-- `mergeSnapshotAndBuilt` (route.ts): prefer persisted summary fields,
falling back to the freshly built summary.  Scalar leaves merge with `??`;
swell components merge via `mergeComponent`; the persisted tides bundle is
taken wholesale whenever `summary.tides.highs` or `summary.tides.lows` is
present (truthy — note an empty array is truthy in JS). -/
def mergeSnapshotAndBuilt (snapshot : Option Snapshot) (built : Option DailySummary) :
    Option DailySummary :=
  if snapshot.isNone && built.isNone then none
  else
    let summ := snapshot.bind fun s => s.summary
    let date :=
      match built with
      | some b => b.date
      | none => (snapshot.bind fun s => s.date).getD ""
    let pTides := summ.bind fun s => s.tides
    let tidesFromSnap : Option TidesPair :=
      if (pTides.bind fun t => t.highs).isSome || (pTides.bind fun t => t.lows).isSome then
        some ⟨(pTides.bind fun t => t.highs).getD [], (pTides.bind fun t => t.lows).getD []⟩
      else none
    some
      { date := date
        swell :=
          { primary := mergeComponent summ (fun s => s.primary) built (fun s => s.primary)
            secondary := mergeComponent summ (fun s => s.secondary) built (fun s => s.secondary)
            tertiary := mergeComponent summ (fun s => s.tertiary) built (fun s => s.tertiary) }
        waveHeight := (summ.bind fun s => s.waveHeight).or (built.bind fun b => b.waveHeight)
        wind :=
          { speed :=
              ((summ.bind fun s => s.wind).bind fun w => w.speed).or
                (built.bind fun b => b.wind.speed)
            direction :=
              ((summ.bind fun s => s.wind).bind fun w => w.direction).or
                (built.bind fun b => b.wind.direction) }
        waterTemperature :=
          (summ.bind fun s => s.waterTemperature).or (built.bind fun b => b.waterTemperature)
        tideHigh := (summ.bind fun s => s.tideHigh).or (built.bind fun b => b.tideHigh)
        tideHighTime :=
          (summ.bind fun s => s.tideHighTime).or (built.bind fun b => b.tideHighTime)
        tideLow := (summ.bind fun s => s.tideLow).or (built.bind fun b => b.tideLow)
        tideLowTime :=
          (summ.bind fun s => s.tideLowTime).or (built.bind fun b => b.tideLowTime)
        tides := tidesFromSnap.getD ((built.map fun b => b.tides).getD ⟨[], []⟩) }

/-! ## Theorems -/

/-! ### C5: median -/

/-- C5: `median` sorts ascending and returns the middle element for odd
length and the arithmetic mean of the two middle elements for even length;
the empty list yields `null`; `median [1,2,9] = 2` and
`median [1,2,8,9] = 5`. -/
theorem median_sorted_middle :
    median ([] : List ℚ) = none ∧
    median [1, 2, 9] = some 2 ∧
    median [1, 2, 8, 9] = some 5 ∧
    ∀ l : List ℚ, l ≠ [] → ∃ s : List ℚ, s.Perm l ∧ s.Sorted (· ≤ ·) ∧
      median l = some (if l.length % 2 = 1 then s.getD (l.length / 2) 0
        else (s.getD (l.length / 2 - 1) 0 + s.getD (l.length / 2) 0) / 2) := by
  refine ⟨rfl, ?_, ?_, ?_⟩
  · norm_num [median, List.mergeSort, List.merge]
  · norm_num [median, List.mergeSort, List.merge]
  · intro l hl
    refine ⟨l.mergeSort fun a b => decide (a ≤ b), List.mergeSort_perm l _, ?_, ?_⟩
    · have hp := @List.sorted_mergeSort ℚ
        (fun a b : ℚ => decide (a ≤ b))
        (fun a b c hab hbc => by
          simp only [decide_eq_true_eq] at *; exact le_trans hab hbc)
        (fun a b => by simpa using le_total a b) l
      exact hp.imp fun h => by simpa using h
    · have hlen : ¬ l.length = 0 := by simpa [List.length_eq_zero] using hl
      simp only [median, hlen, if_false]
      split <;> rfl

/-- C5 witness: the general parity statement applied to `[1,2,9]`. -/
theorem median_sorted_middle_witness :
    ∃ s : List ℚ, s.Perm [1, 2, 9] ∧ s.Sorted (· ≤ ·) ∧
      median [1, 2, 9] = some (if ([1, 2, 9] : List ℚ).length % 2 = 1
        then s.getD (([1, 2, 9] : List ℚ).length / 2) 0
        else (s.getD (([1, 2, 9] : List ℚ).length / 2 - 1) 0 +
          s.getD (([1, 2, 9] : List ℚ).length / 2) 0) / 2) :=
  median_sorted_middle.2.2.2 [1, 2, 9] (by simp)

/-! ### C9: cleaning -/

/-- C9 counterexample: the cleaning pipeline does **not** drop non-finite
entries — `isNaN(Infinity)` is `false`, so `+Infinity` survives both
`numArr` and `clean`, contradicting "every retained value is a finite
real". -/
theorem clean_keeps_infinity :
    JNum.pinf ∈ clean (numArr [JVal.jnum JNum.pinf]) ∧
      JNum.pinf.isFinite = false := by
  exact ⟨by simp [clean, numArr], rfl⟩

/-- C9 (amended): the cleaning pipeline `clean ∘ numArr` drops exactly the
`null` and `NaN` entries and keeps every number entry — including
`±Infinity` — preserving relative order (it is the `filterMap` that extracts
the number entries in place). -/
theorem clean_numArr_eq_numbers :
    ∀ l : List JVal, clean (numArr l) =
      l.filterMap fun v => match v with | .jnum x => some x | _ => none := by
  intro l
  induction l with
  | nil => rfl
  | cons v t ih =>
    cases v with
    | jnull => simpa [clean, numArr] using ih
    | jnan => simpa [clean, numArr] using ih
    | jnum x => simpa [clean, numArr] using ih

/-! ### C8: convenience fields of the tide bundle -/

theorem foldl_pickMax_spec (l : List TideEvent) (p : TideEvent) :
    (l.foldl (fun p c => if p.height < c.height then c else p) p = p ∨
      l.foldl (fun p c => if p.height < c.height then c else p) p ∈ l) ∧
    p.height ≤ (l.foldl (fun p c => if p.height < c.height then c else p) p).height ∧
    ∀ e ∈ l, e.height ≤ (l.foldl (fun p c => if p.height < c.height then c else p) p).height := by
  induction l generalizing p with
  | nil => exact ⟨Or.inl rfl, le_refl _, by simp⟩
  | cons c t ih =>
    simp only [List.foldl_cons]
    by_cases h : p.height < c.height
    · rw [if_pos h]
      rcases ih c with ⟨hmem, hle, hall⟩
      refine ⟨?_, ?_, ?_⟩
      · rcases hmem with h' | h'
        · exact Or.inr (by simp [h'])
        · exact Or.inr (List.mem_cons_of_mem _ h')
      · exact le_trans (le_of_lt h) hle
      · intro e he
        rcases List.mem_cons.mp he with rfl | he'
        · exact hle
        · exact hall e he'
    · rw [if_neg h]
      rcases ih p with ⟨hmem, hle, hall⟩
      refine ⟨?_, hle, ?_⟩
      · rcases hmem with h' | h'
        · exact Or.inl h'
        · exact Or.inr (List.mem_cons_of_mem _ h')
      · intro e he
        rcases List.mem_cons.mp he with rfl | he'
        · exact le_trans (le_of_not_lt h) hle
        · exact hall e he'

theorem foldl_pickMin_spec (l : List TideEvent) (p : TideEvent) :
    (l.foldl (fun p c => if c.height < p.height then c else p) p = p ∨
      l.foldl (fun p c => if c.height < p.height then c else p) p ∈ l) ∧
    (l.foldl (fun p c => if c.height < p.height then c else p) p).height ≤ p.height ∧
    ∀ e ∈ l, (l.foldl (fun p c => if c.height < p.height then c else p) p).height ≤ e.height := by
  induction l generalizing p with
  | nil => exact ⟨Or.inl rfl, le_refl _, by simp⟩
  | cons c t ih =>
    simp only [List.foldl_cons]
    by_cases h : c.height < p.height
    · rw [if_pos h]
      rcases ih c with ⟨hmem, hle, hall⟩
      refine ⟨?_, ?_, ?_⟩
      · rcases hmem with h' | h'
        · exact Or.inr (by simp [h'])
        · exact Or.inr (List.mem_cons_of_mem _ h')
      · exact le_trans hle (le_of_lt h)
      · intro e he
        rcases List.mem_cons.mp he with rfl | he'
        · exact hle
        · exact hall e he'
    · rw [if_neg h]
      rcases ih p with ⟨hmem, hle, hall⟩
      refine ⟨?_, hle, ?_⟩
      · rcases hmem with h' | h'
        · exact Or.inl h'
        · exact Or.inr (List.mem_cons_of_mem _ h')
      · intro e he
        rcases List.mem_cons.mp he with rfl | he'
        · exact le_trans hle (le_of_not_lt h)
        · exact hall e he'

theorem pickMax_spec {l : List TideEvent} (hl : l ≠ []) :
    ∃ m, pickMax l = some m ∧ m ∈ l ∧ ∀ e ∈ l, e.height ≤ m.height := by
  cases l with
  | nil => exact absurd rfl hl
  | cons e es =>
    rcases foldl_pickMax_spec (e :: es) e with ⟨hmem, _, hall⟩
    refine ⟨_, rfl, ?_, hall⟩
    rcases hmem with h | h
    · rw [h]; exact List.mem_cons_self _ _
    · exact h

theorem pickMin_spec {l : List TideEvent} (hl : l ≠ []) :
    ∃ m, pickMin l = some m ∧ m ∈ l ∧ ∀ e ∈ l, m.height ≤ e.height := by
  cases l with
  | nil => exact absurd rfl hl
  | cons e es =>
    rcases foldl_pickMin_spec (e :: es) e with ⟨hmem, _, hall⟩
    refine ⟨_, rfl, ?_, hall⟩
    rcases hmem with h | h
    · rw [h]; exact List.mem_cons_self _ _
    · exact h

/-- C8: in every returned tide bundle, `tideHigh`/`tideHighTime` are the
height and time of an event of greatest height among the returned `highs`,
and `tideLow`/`tideLowTime` those of an event of least height among the
returned `lows` — chosen by extremeness; in the concrete two-event bundles
below they differ from `highs[0]` / `lows[0]`. -/
theorem buildTideSummary_convenience :
    (∀ highs lows : List TideEvent, highs ≠ [] →
      ∃ e ∈ (buildTideSummary highs lows).highs,
        (buildTideSummary highs lows).tideHigh = some e.height ∧
        (buildTideSummary highs lows).tideHighTime = some e.time ∧
        ∀ e' ∈ (buildTideSummary highs lows).highs, e'.height ≤ e.height) ∧
    (∀ highs lows : List TideEvent, lows ≠ [] →
      ∃ e ∈ (buildTideSummary highs lows).lows,
        (buildTideSummary highs lows).tideLow = some e.height ∧
        (buildTideSummary highs lows).tideLowTime = some e.time ∧
        ∀ e' ∈ (buildTideSummary highs lows).lows, e.height ≤ e'.height) ∧
    ((buildTideSummary [⟨"t1", 1⟩, ⟨"t2", 2⟩] [⟨"u1", 5⟩, ⟨"u2", 3⟩]).tideHighTime =
        some "t2" ∧
      ((buildTideSummary [⟨"t1", 1⟩, ⟨"t2", 2⟩] [⟨"u1", 5⟩, ⟨"u2", 3⟩]).highs.head?.map
        fun e => e.time) = some "t1" ∧
      (buildTideSummary [⟨"t1", 1⟩, ⟨"t2", 2⟩] [⟨"u1", 5⟩, ⟨"u2", 3⟩]).tideLowTime =
        some "u2" ∧
      ((buildTideSummary [⟨"t1", 1⟩, ⟨"t2", 2⟩] [⟨"u1", 5⟩, ⟨"u2", 3⟩]).lows.head?.map
        fun e => e.time) = some "u1") := by
  refine ⟨?_, ?_, rfl, rfl, rfl, rfl⟩
  · intro highs lows hne
    rcases pickMax_spec hne with ⟨m, hm, hmem, hall⟩
    refine ⟨⟨m.time, fix3 m.height⟩, ?_, ?_, ?_, ?_⟩
    · exact List.mem_map_of_mem _ hmem
    · simp [buildTideSummary, hm]
    · simp [buildTideSummary, hm]
    · intro e' he'
      simp only [buildTideSummary, List.mem_map] at he'
      rcases he' with ⟨x, hx, rfl⟩
      exact fix3_mono (hall x hx)
  · intro highs lows hne
    rcases pickMin_spec hne with ⟨m, hm, hmem, hall⟩
    refine ⟨⟨m.time, fix3 m.height⟩, ?_, ?_, ?_, ?_⟩
    · exact List.mem_map_of_mem _ hmem
    · simp [buildTideSummary, hm]
    · simp [buildTideSummary, hm]
    · intro e' he'
      simp only [buildTideSummary, List.mem_map] at he'
      rcases he' with ⟨x, hx, rfl⟩
      exact fix3_mono (hall x hx)

/-- C8 witness: the high-side statement at a concrete one-event list. -/
theorem buildTideSummary_convenience_witness :
    ∃ e ∈ (buildTideSummary [⟨"t1", (1 : ℚ)⟩] []).highs,
      (buildTideSummary [⟨"t1", (1 : ℚ)⟩] []).tideHigh = some e.height ∧
      (buildTideSummary [⟨"t1", (1 : ℚ)⟩] []).tideHighTime = some e.time ∧
      ∀ e' ∈ (buildTideSummary [⟨"t1", (1 : ℚ)⟩] []).highs, e'.height ≤ e.height :=
  buildTideSummary_convenience.1 [⟨"t1", (1 : ℚ)⟩] [] (by simp)

/-! ### C4 / C10: direction binning -/

theorem jsMod360_bounds (d : ℚ) : -360 < jsMod360 d ∧ jsMod360 d < 360 := by
  unfold jsMod360
  by_cases h : (0:ℚ) ≤ d
  · rw [if_pos h]
    have h1 : ((⌊d / 360⌋ : ℤ) : ℚ) ≤ d / 360 := Int.floor_le _
    have h2 : d / 360 < (⌊d / 360⌋ : ℤ) + 1 := Int.lt_floor_add_one _
    constructor <;> linarith
  · rw [if_neg h]
    have h1 : d / 360 ≤ ((⌈d / 360⌉ : ℤ) : ℚ) := Int.le_ceil _
    have h2 : ((⌈d / 360⌉ : ℤ) : ℚ) < d / 360 + 1 := Int.ceil_lt_add_one _
    constructor <;> linarith

theorem normDir_bounds (d : ℚ) : 0 ≤ normDir d ∧ normDir d ≤ 360 := by
  rcases jsMod360_bounds d with ⟨hlo, hhi⟩
  unfold normDir jsRound
  have hx : 0 ≤ (if jsMod360 d < 0 then jsMod360 d + 360 else jsMod360 d) ∧
      (if jsMod360 d < 0 then jsMod360 d + 360 else jsMod360 d) < 360 := by
    by_cases h : jsMod360 d < 0
    · rw [if_pos h]; constructor <;> linarith
    · rw [if_neg h]; constructor <;> linarith
  refine ⟨Int.le_floor.mpr (by push_cast; linarith [hx.1]), ?_⟩
  have : (⌊(if jsMod360 d < 0 then jsMod360 d + 360 else jsMod360 d) + 1/2⌋ : ℤ) < 361 :=
    Int.floor_lt.mpr (by push_cast; linarith [hx.2])
  omega

theorem binOf_mem_keys {n : ℤ} (h0 : 0 ≤ n) (h1 : n ≤ 360) :
    ∃ i : ℕ, i < 37 ∧ binOf n = 10 * (i : ℤ) := by
  unfold binOf jsRound
  have hq0 : (0:ℚ) ≤ (n : ℚ) / 10 := by positivity
  have hq1 : (n : ℚ) / 10 ≤ 36 := by
    rw [div_le_iff₀ (by norm_num)]
    exact_mod_cast le_trans h1 (by norm_num)
  have hf0 : 0 ≤ ⌊(n : ℚ) / 10 + 1/2⌋ := Int.le_floor.mpr (by push_cast; linarith)
  have hf1 : ⌊(n : ℚ) / 10 + 1/2⌋ < 37 := Int.floor_lt.mpr (by push_cast; linarith)
  refine ⟨⌊(n : ℚ) / 10 + 1/2⌋.toNat, by omega, ?_⟩
  rw [Int.toNat_of_nonneg hf0]
  ring

/-- The accumulating scan over ascending bin keys keeps the first key that
attains the running maximum: starting from a currently-best key `b` smaller
than every remaining key, the final best key is the least key of maximal
count among `b :: ks`. -/
theorem foldl_bestStep_spec (cnt : ℤ → ℤ) :
    ∀ (ks : List ℤ) (b : ℤ), ks.Pairwise (· < ·) → (∀ x ∈ ks, b < x) →
      ∃ m, ks.foldl (bestStep cnt) (some b, cnt b) = (some m, cnt m) ∧
        m ∈ b :: ks ∧ (∀ j ∈ b :: ks, cnt j ≤ cnt m) ∧
        (∀ j ∈ b :: ks, cnt m ≤ cnt j → m ≤ j) := by
  intro ks
  induction ks with
  | nil =>
    intro b _ _
    exact ⟨b, rfl, List.mem_cons_self _ _, by simp, by simp⟩
  | cons k kt ih =>
    intro b hpair hgt
    have hbk : b < k := hgt k (List.mem_cons_self _ _)
    have hkkt : ∀ x ∈ kt, k < x := fun x hx => (List.pairwise_cons.mp hpair).1 x hx
    have hpkt : kt.Pairwise (· < ·) := (List.pairwise_cons.mp hpair).2
    rw [List.foldl_cons]
    by_cases hc : cnt b < cnt k
    · rw [show bestStep cnt (some b, cnt b) k = (some k, cnt k) by
        simp [bestStep, hc]]
      rcases ih k hpkt hkkt with ⟨m, heq, hmem, hmax, hleast⟩
      have hkm : cnt k ≤ cnt m := hmax k (List.mem_cons_self _ _)
      refine ⟨m, heq, List.mem_cons_of_mem _ hmem, ?_, ?_⟩
      · intro j hj
        rcases List.mem_cons.mp hj with rfl | hj'
        · linarith
        · exact hmax j hj'
      · intro j hj hcnt
        rcases List.mem_cons.mp hj with rfl | hj'
        · linarith
        · exact hleast j hj' hcnt
    · rw [show bestStep cnt (some b, cnt b) k = (some b, cnt b) by
        simp [bestStep, hc]]
      have hbkt : ∀ x ∈ kt, b < x := fun x hx => lt_trans hbk (hkkt x hx)
      rcases ih b hpkt hbkt with ⟨m, heq, hmem, hmax, hleast⟩
      have hbm : cnt b ≤ cnt m := hmax b (List.mem_cons_self _ _)
      have hkb : cnt k ≤ cnt b := le_of_not_lt hc
      refine ⟨m, heq, ?_, ?_, ?_⟩
      · rcases List.mem_cons.mp hmem with rfl | hm'
        · exact List.mem_cons_self _ _
        · exact List.mem_cons_of_mem _ (List.mem_cons_of_mem _ hm')
      · intro j hj
        rcases List.mem_cons.mp hj with rfl | hj'
        · exact hbm
        · rcases List.mem_cons.mp hj' with rfl | hj''
          · linarith
          · exact hmax j (List.mem_cons_of_mem _ hj'')
      · intro j hj hcnt
        rcases List.mem_cons.mp hj with rfl | hj'
        · exact hleast j (List.mem_cons_self _ _) hcnt
        · rcases List.mem_cons.mp hj' with rfl | hj''
          · have : m ≤ b := hleast b (List.mem_cons_self _ _) (by linarith)
            linarith
          · exact hleast j (List.mem_cons_of_mem _ hj'') hcnt

/-- Every element of `binList` is one of the 37 keys `0, 10, …, 360`. -/
theorem mem_binList_key {degs : List (Option ℚ)} {k : ℤ} (hk : k ∈ binList degs) :
    ∃ i : ℕ, i < 37 ∧ k = 10 * (i : ℤ) := by
  unfold binList at hk
  rcases List.mem_map.mp hk with ⟨n, hn, rfl⟩
  rcases List.mem_map.mp hn with ⟨d, _, rfl⟩
  rcases normDir_bounds d with ⟨h0, h1⟩
  rcases binOf_mem_keys h0 h1 with ⟨i, hi, hb⟩
  exact ⟨i, hi, hb⟩

/-- Specification of the best-bin loop: on a non-empty bin list all of
whose elements are 10-degree keys in `[0, 360]`, it returns the bin of
maximal occupancy that is numerically least among those of maximal
occupancy. -/
theorem bestBin_spec (bins : List ℤ) (hbinsne : bins ≠ [])
    (hform : ∀ j ∈ bins, ∃ i : ℕ, i < 37 ∧ j = 10 * (i : ℤ)) :
    ∃ m, bestBin bins = some m ∧ m ∈ bins ∧
      (∀ j : ℤ, bins.count j ≤ bins.count m) ∧
      (∀ j : ℤ, bins.count j = bins.count m → m ≤ j) := by
  have hkp : (binKeys bins).Pairwise (· < ·) := by
    refine List.Pairwise.filter _ (List.Pairwise.map _ ?_ (List.pairwise_lt_range 37))
    intro a b hab
    omega
  have hcomplete : ∀ j : ℤ, bins.count j ≠ 0 → j ∈ binKeys bins := by
    intro j hj
    have hjmem : j ∈ bins := by
      by_contra hnm
      exact hj (List.count_eq_zero.mpr hnm)
    rcases hform j hjmem with ⟨i, hi, rfl⟩
    refine List.mem_filter.mpr ⟨List.mem_map.mpr ⟨i, List.mem_range.mpr hi, rfl⟩, ?_⟩
    simpa using hj
  have hkeysne : binKeys bins ≠ [] := by
    rcases List.exists_mem_of_ne_nil _ hbinsne with ⟨x, hx⟩
    intro h
    have hin := hcomplete x (by
      have := List.count_pos_iff.mpr hx
      omega)
    rw [h] at hin
    exact absurd hin (List.not_mem_nil x)
  rcases List.exists_cons_of_ne_nil hkeysne with ⟨kh, kt, hkcons⟩
  have hkhmem : kh ∈ binKeys bins := by rw [hkcons]; exact List.mem_cons_self _ _
  rcases foldl_bestStep_spec (fun k => (bins.count k : ℤ)) kt kh
      ((List.pairwise_cons.mp (hkcons ▸ hkp)).2)
      ((List.pairwise_cons.mp (hkcons ▸ hkp)).1) with ⟨m, hmeq, hmmem, hmax, hleast⟩
  have hmkeys : m ∈ binKeys bins := hkcons ▸ hmmem
  have hmcount : bins.count m ≠ 0 := by
    have := (List.mem_filter.mp hmkeys).2
    simpa using this
  refine ⟨m, ?_, ?_, ?_, ?_⟩
  · unfold bestBin
    rw [hkcons, List.foldl_cons]
    rw [show bestStep (fun k => (bins.count k : ℤ)) (none, -1) kh =
        (some kh, ((bins.count kh : ℤ))) by
      simp only [bestStep]
      rw [if_pos]
      have : (0:ℤ) ≤ (bins.count kh : ℤ) := Int.ofNat_nonneg _
      linarith]
    rw [hmeq]
  · exact List.count_pos_iff.mp (by omega)
  · intro j
    by_cases hj : bins.count j = 0
    · rw [hj]; omega
    · have := hmax j (hkcons ▸ hcomplete j hj)
      exact_mod_cast this
  · intro j hcount
    have hj : bins.count j ≠ 0 := by omega
    refine hleast j (hkcons ▸ hcomplete j hj) ?_
    exact_mod_cast le_of_eq hcount.symm

/-- Master specification of `mostCommonDirection` on non-degenerate input:
the returned key is a bin of maximal occupancy, least among the bins of
maximal occupancy. -/
theorem mostCommonDirection_spec (degs : List (Option ℚ))
    (hne : degs.filterMap id ≠ []) :
    ∃ k, mostCommonDirection degs = some k ∧ k ∈ binList degs ∧
      (∀ j : ℤ, (binList degs).count j ≤ (binList degs).count k) ∧
      (∀ j : ℤ, (binList degs).count j = (binList degs).count k → k ≤ j) := by
  have hclne : (degs.filterMap id).map normDir ≠ [] := by simpa using hne
  have hempty : ((degs.filterMap id).map normDir).isEmpty = false := by
    rcases List.exists_mem_of_ne_nil _ hclne with ⟨x, hx⟩
    rw [List.isEmpty_eq_false_iff_exists_mem]
    exact ⟨x, hx⟩
  have hbinsne : binList degs ≠ [] := by
    unfold binList
    simpa using hne
  rcases bestBin_spec (binList degs) hbinsne (fun j hj => mem_binList_key hj) with
    ⟨m, hbest, hmem, hmax, hleast⟩
  refine ⟨m, ?_, hmem, hmax, hleast⟩
  unfold mostCommonDirection
  simp only [hempty, Bool.false_eq_true, if_false]
  exact hbest

theorem normDir_358 : normDir 358 = 358 := by
  norm_num [normDir, jsMod360, jsRound]

theorem normDir_0 : normDir 0 = 0 := by
  norm_num [normDir, jsMod360, jsRound]

theorem normDir_20 : normDir 20 = 20 := by
  norm_num [normDir, jsMod360, jsRound]

theorem binOf_358 : binOf 358 = 360 := by
  norm_num [binOf, jsRound]

theorem binOf_0 : binOf 0 = 0 := by
  norm_num [binOf, jsRound]

theorem binOf_20 : binOf 20 = 20 := by
  norm_num [binOf, jsRound]

theorem mcd_358 : mostCommonDirection [some (358 : ℚ)] = some 360 := by
  have h : mostCommonDirection [some (358 : ℚ)] = bestBin [binOf (normDir 358)] := by
    simp [mostCommonDirection]
  rw [h, normDir_358, binOf_358]
  decide

theorem mcd_0_20 : mostCommonDirection [some (0 : ℚ), some 20] = some 0 := by
  have h : mostCommonDirection [some (0 : ℚ), some 20] =
      bestBin [binOf (normDir 0), binOf (normDir 20)] := by
    simp [mostCommonDirection]
  rw [h, normDir_0, normDir_20, binOf_0, binOf_20]
  decide

/-- C4 counterexample: `mostCommonDirection [358]` returns `360`, which lies
outside the half-open interval `[0, 360)` claimed by the spec — the bin key
`Math.round(358/10)*10 = 360` is never reduced modulo 360. -/
theorem mostCommonDirection_returns_360 :
    mostCommonDirection [some (358 : ℚ)] = some 360 ∧ ¬ ((360 : ℤ) < 360) :=
  ⟨mcd_358, by omega⟩

/-- C4 (amended): `mostCommonDirection` returns `null` exactly when the
input is empty or all entries are null/NaN; otherwise it returns the bin key
of some input bearing — an integer in the **closed** interval `[0, 360]`
(360 is attainable) — where each bearing is normalized by the truncated
modulus first and rounded **after** (`Math.round` of `((d % 360) + 360) % 360`,
a value in `[0, 360]`), then binned by `Math.round(d/10)*10`. -/
theorem mostCommonDirection_range :
    ∀ degs : List (Option ℚ),
      (mostCommonDirection degs = none ↔ degs.filterMap id = []) ∧
      ∀ k, mostCommonDirection degs = some k →
        0 ≤ k ∧ k ≤ 360 ∧
        ∃ d ∈ degs.filterMap id, k = binOf (normDir d) ∧
          0 ≤ normDir d ∧ normDir d ≤ 360 := by
  intro degs
  constructor
  · constructor
    · intro h
      by_contra hne
      rcases mostCommonDirection_spec degs hne with ⟨k, hk, _, _, _⟩
      rw [h] at hk
      cases hk
    · intro h
      simp [mostCommonDirection, h]
  · intro k hk
    have hne : degs.filterMap id ≠ [] := by
      intro h
      rw [show mostCommonDirection degs = none by simp [mostCommonDirection, h]] at hk
      cases hk
    rcases mostCommonDirection_spec degs hne with ⟨m, hm, hmem, _, _⟩
    rw [hm] at hk
    obtain rfl : m = k := by injection hk
    unfold binList at hmem
    rcases List.mem_map.mp hmem with ⟨n, hn, rfl⟩
    rcases List.mem_map.mp hn with ⟨d, hd, rfl⟩
    rcases normDir_bounds d with ⟨h0, h1⟩
    rcases binOf_mem_keys h0 h1 with ⟨i, hi, hb⟩
    exact ⟨by omega, by omega, d, hd, rfl, h0, h1⟩

/-- C4 witness: the amended range statement applied to the input `[358]`. -/
theorem mostCommonDirection_range_witness :
    0 ≤ (360 : ℤ) ∧ (360 : ℤ) ≤ 360 ∧
      ∃ d ∈ ([some (358 : ℚ)] : List (Option ℚ)).filterMap id,
        (360 : ℤ) = binOf (normDir d) ∧ 0 ≤ normDir d ∧ normDir d ≤ 360 :=
  (mostCommonDirection_range [some (358 : ℚ)]).2 360 mcd_358

/-- C10: whenever `mostCommonDirection` returns a key, that key's bin has
maximal occupancy and the key is numerically least among all bins of that
occupancy — in particular, on a tie between bins the numerically smallest
tied bin key is returned (bins are visited in ascending key order and a
later bin wins only on a strictly greater count). -/
theorem mostCommonDirection_tie_smallest :
    ∀ (degs : List (Option ℚ)) (k : ℤ), mostCommonDirection degs = some k →
      (∀ j : ℤ, (binList degs).count j ≤ (binList degs).count k) ∧
      ∀ j : ℤ, (binList degs).count j = (binList degs).count k → k ≤ j := by
  intro degs k hk
  have hne : degs.filterMap id ≠ [] := by
    intro h
    rw [show mostCommonDirection degs = none by simp [mostCommonDirection, h]] at hk
    cases hk
  rcases mostCommonDirection_spec degs hne with ⟨m, hm, _, hmax, hleast⟩
  rw [hm] at hk
  obtain rfl : m = k := by injection hk
  exact ⟨hmax, hleast⟩

/-- C10 witness: on `[0, 20]` the bins 0 and 20 tie with one entry each and
the smaller key 0 is returned. -/
theorem mostCommonDirection_tie_smallest_witness :
    (∀ j : ℤ, (binList [some (0 : ℚ), some 20]).count j ≤
      (binList [some (0 : ℚ), some 20]).count 0) ∧
    ∀ j : ℤ, (binList [some (0 : ℚ), some 20]).count j =
      (binList [some (0 : ℚ), some 20]).count 0 → (0 : ℤ) ≤ j :=
  mostCommonDirection_tie_smallest [some (0 : ℚ), some 20] 0 mcd_0_20

/-! ### C1 / C3: reconciliation -/

/-- `pickSummary(snapshot, "swell.<tier>")` followed by the tier projection:
the persisted swell component reachable from a snapshot. -/
def pickSwell (s : Option Snapshot) (getP : PSwell3 → Option SwellComponent) :
    Option SwellComponent :=
  ((s.bind fun x => x.summary).bind fun p => p.swell).bind getP

/-- The persisted snapshot of the reconciliation-precedence example:
`swell.primary = {height: 1.2, period: null}`. -/
def persistedC1 : Snapshot :=
  { summary := some { swell := some { primary := some ⟨some (6/5), none, none⟩ } } }

/-- The freshly-built summary of the reconciliation-precedence example:
`swell.primary = {height: 9.9, period: 11}`. -/
def builtC1 : DailySummary :=
  { date := "2025-06-01"
    swell := ⟨some ⟨some (99/10), some 11, none⟩, none, none⟩
    waveHeight := none
    wind := ⟨none, none⟩
    waterTemperature := none
    tideHigh := none
    tideHighTime := none
    tideLow := none
    tideLowTime := none
    tides := ⟨[], []⟩ }

/-- C1 counterexample: with persisted `swell.primary = {height: 1.2,
period: null}` and freshly-built `{height: 9.9, period: 11}`, the merged
component keeps the persisted leaves verbatim — its period is `null`, not
the freshly-built `11` — so the merge is **not** per-leaf inside a swell
component. -/
theorem merge_swell_component_not_per_leaf :
    ((((mergeSnapshotAndBuilt (some persistedC1) (some builtC1)).bind
        fun m => m.swell.primary).bind fun c => c.period) = none) ∧
    ((builtC1.swell.primary.bind fun c => c.period) = some 11) ∧
    ((((mergeSnapshotAndBuilt (some persistedC1) (some builtC1)).bind
        fun m => m.swell.primary).bind fun c => c.height) = some (6/5)) :=
  ⟨rfl, rfl, rfl⟩

/-- C1 (amended): `mergeSnapshotAndBuilt` merges the **scalar** summary
leaves (waveHeight, wind speed/direction, waterTemperature, the four tide
convenience fields) per leaf — persisted when non-null, otherwise freshly
built, otherwise null.  A swell component, however, is merged per
**component**: when any of the persisted component's three leaves is
non-null, the persisted leaves are taken verbatim (missing ones stay null —
they are *not* filled from the freshly-built component); only when all three
are null is the freshly-built component used. -/
theorem mergeSnapshotAndBuilt_policy :
    ∀ (s : Option Snapshot) (b : Option DailySummary) (m : DailySummary),
      mergeSnapshotAndBuilt s b = some m →
      m.waveHeight = ((s.bind fun x => x.summary).bind fun p => p.waveHeight).or
          (b.bind fun x => x.waveHeight) ∧
      m.wind.speed = (((s.bind fun x => x.summary).bind fun p => p.wind).bind
          fun w => w.speed).or (b.bind fun x => x.wind.speed) ∧
      m.wind.direction = (((s.bind fun x => x.summary).bind fun p => p.wind).bind
          fun w => w.direction).or (b.bind fun x => x.wind.direction) ∧
      m.waterTemperature = ((s.bind fun x => x.summary).bind
          fun p => p.waterTemperature).or (b.bind fun x => x.waterTemperature) ∧
      m.tideHigh = ((s.bind fun x => x.summary).bind fun p => p.tideHigh).or
          (b.bind fun x => x.tideHigh) ∧
      m.tideHighTime = ((s.bind fun x => x.summary).bind fun p => p.tideHighTime).or
          (b.bind fun x => x.tideHighTime) ∧
      m.tideLow = ((s.bind fun x => x.summary).bind fun p => p.tideLow).or
          (b.bind fun x => x.tideLow) ∧
      m.tideLowTime = ((s.bind fun x => x.summary).bind fun p => p.tideLowTime).or
          (b.bind fun x => x.tideLowTime) ∧
      ((pickSwell s fun w => w.primary).bind (fun c => c.height) = none ∧
        (pickSwell s fun w => w.primary).bind (fun c => c.period) = none ∧
        (pickSwell s fun w => w.primary).bind (fun c => c.direction) = none →
          m.swell.primary = b.bind fun x => x.swell.primary) ∧
      (((pickSwell s fun w => w.primary).bind (fun c => c.height)).isSome = true ∨
        ((pickSwell s fun w => w.primary).bind (fun c => c.period)).isSome = true ∨
        ((pickSwell s fun w => w.primary).bind (fun c => c.direction)).isSome = true →
          m.swell.primary = some
            ⟨(pickSwell s fun w => w.primary).bind fun c => c.height,
             (pickSwell s fun w => w.primary).bind fun c => c.period,
             (pickSwell s fun w => w.primary).bind fun c => c.direction⟩) ∧
      ((pickSwell s fun w => w.secondary).bind (fun c => c.height) = none ∧
        (pickSwell s fun w => w.secondary).bind (fun c => c.period) = none ∧
        (pickSwell s fun w => w.secondary).bind (fun c => c.direction) = none →
          m.swell.secondary = b.bind fun x => x.swell.secondary) ∧
      (((pickSwell s fun w => w.secondary).bind (fun c => c.height)).isSome = true ∨
        ((pickSwell s fun w => w.secondary).bind (fun c => c.period)).isSome = true ∨
        ((pickSwell s fun w => w.secondary).bind (fun c => c.direction)).isSome = true →
          m.swell.secondary = some
            ⟨(pickSwell s fun w => w.secondary).bind fun c => c.height,
             (pickSwell s fun w => w.secondary).bind fun c => c.period,
             (pickSwell s fun w => w.secondary).bind fun c => c.direction⟩) ∧
      ((pickSwell s fun w => w.tertiary).bind (fun c => c.height) = none ∧
        (pickSwell s fun w => w.tertiary).bind (fun c => c.period) = none ∧
        (pickSwell s fun w => w.tertiary).bind (fun c => c.direction) = none →
          m.swell.tertiary = b.bind fun x => x.swell.tertiary) ∧
      (((pickSwell s fun w => w.tertiary).bind (fun c => c.height)).isSome = true ∨
        ((pickSwell s fun w => w.tertiary).bind (fun c => c.period)).isSome = true ∨
        ((pickSwell s fun w => w.tertiary).bind (fun c => c.direction)).isSome = true →
          m.swell.tertiary = some
            ⟨(pickSwell s fun w => w.tertiary).bind fun c => c.height,
             (pickSwell s fun w => w.tertiary).bind fun c => c.period,
             (pickSwell s fun w => w.tertiary).bind fun c => c.direction⟩) := by
  intro s b m h
  unfold mergeSnapshotAndBuilt at h
  by_cases hc : (s.isNone && b.isNone) = true
  · rw [if_pos hc] at h
    cases h
  · rw [if_neg hc] at h
    injection h with h'
    subst h'
    refine ⟨rfl, rfl, rfl, rfl, rfl, rfl, rfl, rfl, ?_, ?_, ?_, ?_, ?_, ?_⟩
    case neg.refine_1 | neg.refine_3 | neg.refine_5 =>
      rintro ⟨h1, h2, h3⟩
      dsimp only
      simp only [mergeComponent, pickSwell] at h1 h2 h3 ⊢
      rw [h1, h2, h3]
      simp
    case neg.refine_2 | neg.refine_4 | neg.refine_6 =>
      intro hor
      dsimp only
      simp only [mergeComponent, pickSwell] at hor ⊢
      rcases hor with h1 | h1 | h1 <;> simp [h1]

/-- C1 witness: the policy theorem applied to the reconciliation-precedence
example pair (only the conjuncts that carry hypotheses are exercised; the
component with a partially non-null persisted value keeps its null period). -/
theorem mergeSnapshotAndBuilt_policy_witness :
    (⟨"2025-06-01", ⟨some ⟨some (6/5), none, none⟩, none, none⟩, none, ⟨none, none⟩,
      none, none, none, none, none, ⟨[], []⟩⟩ : DailySummary).swell.primary =
      some ⟨(pickSwell (some persistedC1) fun w => w.primary).bind fun c => c.height,
            (pickSwell (some persistedC1) fun w => w.primary).bind fun c => c.period,
            (pickSwell (some persistedC1) fun w => w.primary).bind fun c => c.direction⟩ :=
  (mergeSnapshotAndBuilt_policy (some persistedC1) (some builtC1)
    ⟨"2025-06-01", ⟨some ⟨some (6/5), none, none⟩, none, none⟩, none, ⟨none, none⟩,
      none, none, none, none, none, ⟨[], []⟩⟩ rfl).2.2.2.2.2.2.2.2.2.1 (Or.inl rfl)

/-- A persisted snapshot whose `summary.tides` bundle is present but holds
zero events (`highs: [], lows: []`). -/
def persistedC3 : Snapshot :=
  { summary := some { tides := some ⟨some [], some []⟩ } }

/-- A freshly-built summary with one detected high tide. -/
def builtC3 : DailySummary :=
  { date := "2025-06-01"
    swell := ⟨none, none, none⟩
    waveHeight := none
    wind := ⟨none, none⟩
    waterTemperature := none
    tideHigh := none
    tideHighTime := none
    tideLow := none
    tideLowTime := none
    tides := ⟨[⟨"2025-06-01T03:00", 1⟩], []⟩ }

/-- C3 counterexample: a persisted `tides` bundle containing **no** events
(`{highs: [], lows: []}` — both arrays empty but present, hence truthy in
JS) is still used wholesale, discarding the freshly-built bundle with one
high; so wholesale use does not happen "exactly when it contains at least
one high or one low event". -/
theorem merge_tides_empty_bundle_wins :
    ((mergeSnapshotAndBuilt (some persistedC3) (some builtC3)).map fun m => m.tides) =
      some ⟨[], []⟩ ∧
    builtC3.tides.highs ≠ [] :=
  ⟨rfl, List.cons_ne_nil _ _⟩

/-- C3 (amended): the persisted tides bundle is used wholesale exactly when
the persisted summary carries a `tides` object with a `highs` or a `lows`
field **present** (possibly an empty array — presence, not event count, is
what decides); otherwise the freshly-built bundle (or an empty bundle when
no summary was built) is used. -/
theorem merge_tides_wholesale :
    ∀ (s : Option Snapshot) (b : Option DailySummary) (m : DailySummary),
      mergeSnapshotAndBuilt s b = some m →
      (((s.bind fun x => x.summary).bind fun p => p.tides) = none →
        m.tides = (b.map fun x => x.tides).getD ⟨[], []⟩) ∧
      ∀ t, ((s.bind fun x => x.summary).bind fun p => p.tides) = some t →
        (t.highs = none ∧ t.lows = none →
          m.tides = (b.map fun x => x.tides).getD ⟨[], []⟩) ∧
        (t.highs.isSome = true ∨ t.lows.isSome = true →
          m.tides = ⟨t.highs.getD [], t.lows.getD []⟩) := by
  intro s b m h
  unfold mergeSnapshotAndBuilt at h
  by_cases hc : (s.isNone && b.isNone) = true
  · rw [if_pos hc] at h
    cases h
  · rw [if_neg hc] at h
    injection h with h'
    subst h'
    constructor
    · intro ht
      dsimp only
      rw [ht]
      simp
    · intro t ht
      constructor
      · rintro ⟨h1, h2⟩
        dsimp only
        rw [ht]
        simp [h1, h2]
      · intro hor
        dsimp only
        rw [ht]
        rcases hor with h1 | h1 <;> simp [h1]

/-- C3 witness: the wholesale branch applied to the empty-but-present
persisted bundle and a built summary with one high. -/
theorem merge_tides_wholesale_witness :
    (⟨"2025-06-01", ⟨none, none, none⟩, none, ⟨none, none⟩, none,
      none, none, none, none, ⟨[], []⟩⟩ : DailySummary).tides =
      ⟨(⟨some [], some []⟩ : PTides).highs.getD [], (⟨some [], some []⟩ : PTides).lows.getD []⟩ :=
  ((merge_tides_wholesale (some persistedC3) (some builtC3)
    ⟨"2025-06-01", ⟨none, none, none⟩, none, ⟨none, none⟩, none,
      none, none, none, none, ⟨[], []⟩⟩ rfl).2 ⟨some [], some []⟩ rfl).2 (Or.inl rfl)

/-! ### C6: null result of the builder -/

theorem filter_range_startsWith_nil (ts : List String) (pfx : String) :
    ((List.range ts.length).filter fun i => jsStartsWith (ts.getD i "") pfx) = [] ↔
      ∀ t ∈ ts, jsStartsWith t pfx = false := by
  rw [List.filter_eq_nil_iff]
  constructor
  · intro h t ht
    rcases List.mem_iff_getElem.mp ht with ⟨i, hi, rfl⟩
    have hni := h i (List.mem_range.mpr hi)
    rw [List.getD_eq_getElem?_getD, List.getElem?_eq_getElem hi] at hni
    simpa using hni
  · intro h i hi
    have hi' := List.mem_range.mp hi
    rw [List.getD_eq_getElem?_getD, List.getElem?_eq_getElem hi']
    simp [h (ts[i]) (List.getElem_mem hi')]

theorem cleanQ_slice_nil (idxs : List ℕ) : cleanQ (sliceIdx idxs []) = [] := by
  simp [cleanQ, sliceIdx, List.filterMap_map]

/-- C6: `buildDailyFromHourly` returns `null` exactly when the hourly
bundle's timestamp array is missing (or not a sequence) or no timestamp
starts with `date ++ "T"`; in every other case it returns a summary object,
with `null` in any field whose channel lacks samples for the day (shown here
for the wave-height, wind-speed and water-temperature channels when they are
missing from the bundle). -/
theorem buildDaily_none_iff :
    ∀ (date : String) (h : Hourly),
      (buildDailyFromHourly date h = none ↔
        h.time = none ∨ ∃ ts, h.time = some ts ∧
          ∀ t ∈ ts, jsStartsWith t (date ++ "T") = false) ∧
      ∀ s, buildDailyFromHourly date h = some s →
        (h.wave_height = none → s.waveHeight = none) ∧
        (h.wind_speed_10m = none → s.wind.speed = none) ∧
        (h.sea_surface_temperature = none → s.waterTemperature = none) := by
  intro date h
  cases htime : h.time with
  | none =>
    constructor
    · simp [buildDailyFromHourly, htime]
    · intro s hs
      simp only [buildDailyFromHourly, htime] at hs
      cases hs
  | some ts =>
    have hunfold : buildDailyFromHourly date h =
        if ((List.range ts.length).filter fun i =>
            jsStartsWith (ts.getD i "") (date ++ "T")).isEmpty then none
        else buildDailyFromHourly date h := by
      by_cases hid : ((List.range ts.length).filter fun i =>
          jsStartsWith (ts.getD i "") (date ++ "T")).isEmpty = true
      · rw [if_pos hid]
        simp only [buildDailyFromHourly, htime, hid, if_true]
      · rw [if_neg hid]
    constructor
    · by_cases hid : ((List.range ts.length).filter fun i =>
          jsStartsWith (ts.getD i "") (date ++ "T")).isEmpty = true
      · rw [hunfold, if_pos hid]
        rw [List.isEmpty_iff] at hid
        simp only [htime]
        constructor
        · intro _
          exact Or.inr ⟨ts, rfl, (filter_range_startsWith_nil ts (date ++ "T")).mp hid⟩
        · intro _
          trivial
      · rw [hunfold, if_neg hid]
        have hne : ((List.range ts.length).filter fun i =>
            jsStartsWith (ts.getD i "") (date ++ "T")) ≠ [] := by
          intro hh
          exact hid (by rw [hh]; rfl)
        simp only [buildDailyFromHourly, htime]
        rw [if_neg hid]
        constructor
        · intro hc
          cases hc
        · rintro (hn | ⟨ts', hts', hall⟩)
          · cases hn
          · injection hts' with hts'
            subst hts'
            exact absurd ((filter_range_startsWith_nil ts (date ++ "T")).mpr hall) hne
    · intro s hs
      simp only [buildDailyFromHourly, htime] at hs
      by_cases hid : ((List.range ts.length).filter fun i =>
          jsStartsWith (ts.getD i "") (date ++ "T")).isEmpty = true
      · rw [if_pos hid] at hs
        cases hs
      · rw [if_neg hid] at hs
        injection hs with hs
        subst hs
        refine ⟨?_, ?_, ?_⟩ <;> intro hch <;> dsimp only <;>
          rw [hch] <;>
          simp [numArrQ, cleanQ_slice_nil, median]

/-- The hourly bundle of the C6 witness: one timestamp on the target day,
every channel missing. -/
def hourlyC6 : Hourly := { time := some ["2025-06-01T00:00"] }

/-- The summary built from `hourlyC6`: all fields null. -/
def builtC6 : DailySummary :=
  ⟨"2025-06-01", ⟨none, none, none⟩, none, ⟨none, none⟩, none,
    none, none, none, none, ⟨[], []⟩⟩

/-- C6 witness: on a bundle with a day-matching timestamp but no channels,
the builder returns a summary (not null) whose wave-height, wind-speed and
water-temperature fields are null. -/
theorem buildDaily_none_iff_witness :
    builtC6.waveHeight = none ∧ builtC6.wind.speed = none ∧
      builtC6.waterTemperature = none :=
  ⟨((buildDaily_none_iff "2025-06-01" hourlyC6).2 builtC6 rfl).1 rfl,
   ((buildDaily_none_iff "2025-06-01" hourlyC6).2 builtC6 rfl).2.1 rfl,
   ((buildDaily_none_iff "2025-06-01" hourlyC6).2 builtC6 rfl).2.2 rfl⟩

/-! ### C2: empty tide bundle -/

/-- C2 counterexample: with a single sample on the target date (fewer than 3
date-matching samples), both interior candidate sets are empty, but the
fallback still produces one high and one low from the day's minimum/maximum
sample — the bundle is **not** empty and the convenience fields are not
null. -/
theorem tideEvents_single_sample_not_empty :
    (["2025-06-01T00:00"] : List String).length < 3 ∧
    (∀ t ∈ (["2025-06-01T00:00"] : List String),
      jsStartsWith t ("2025-06-01" ++ "T") = true) ∧
    (tideEventsForDate ["2025-06-01T00:00"] [some 2] "2025-06-01").highs =
      [⟨"2025-06-01T00:00", fix3 2⟩] ∧
    (tideEventsForDate ["2025-06-01T00:00"] [some 2] "2025-06-01").lows =
      [⟨"2025-06-01T00:00", fix3 2⟩] ∧
    (tideEventsForDate ["2025-06-01T00:00"] [some 2] "2025-06-01").tideHigh =
      some (fix3 2) :=
  ⟨by norm_num, by decide, rfl, rfl, rfl⟩

/-- C2 (amended): the bundle is empty with all four convenience fields null
exactly in the weaker situation that **no** sample on the target date has a
non-null height (with 1 or 2 date samples the fallback still returns
events); this is a normal return, not an error. -/
theorem tideEvents_no_day_samples_empty :
    ∀ (times : List String) (heights : List (Option ℚ)) (date : String),
      (∀ i, i < times.length → jsStartsWith (times.getD i "") (date ++ "T") = true →
        heights.getD i none = none) →
      tideEventsForDate times heights date = ⟨[], [], none, none, none, none⟩ := by
  intro times heights date hnull
  have hsh : scanHighs times heights (date ++ "T") = [] := by
    rw [scanHighs, List.filterMap_eq_nil_iff]
    intro i hi
    have hilen := List.mem_range.mp hi
    unfold scanHighBody
    by_cases hb : 1 ≤ i ∧ i + 1 < times.length
    · rw [if_pos hb]
      by_cases hsw : jsStartsWith (times.getD i "") (date ++ "T") = true
      · rw [if_pos hsw, hnull i hilen hsw]
        cases heights.getD (i - 1) none <;> cases heights.getD (i + 1) none <;> rfl
      · rw [if_neg hsw]
    · rw [if_neg hb]
  have hsl : scanLows times heights (date ++ "T") = [] := by
    rw [scanLows, List.filterMap_eq_nil_iff]
    intro i hi
    have hilen := List.mem_range.mp hi
    unfold scanLowBody
    by_cases hb : 1 ≤ i ∧ i + 1 < times.length
    · rw [if_pos hb]
      by_cases hsw : jsStartsWith (times.getD i "") (date ++ "T") = true
      · rw [if_pos hsw, hnull i hilen hsw]
        cases heights.getD (i - 1) none <;> cases heights.getD (i + 1) none <;> rfl
      · rw [if_neg hsw]
    · rw [if_neg hb]
  have hdp : dayPairs times heights (date ++ "T") = [] := by
    rw [dayPairs, List.filterMap_eq_nil_iff]
    intro i hi
    have hilen := List.mem_range.mp hi
    by_cases hsw : jsStartsWith (times.getD i "") (date ++ "T") = true
    · rw [if_pos hsw, hnull i hilen hsw]
      rfl
    · rw [if_neg hsw]
  simp only [tideEventsForDate, hsh, hsl, hdp, List.isEmpty_nil, Bool.or_self, if_true]
  rfl

/-- C2 witness: a series whose only day-matching sample has a null height
yields the empty bundle with all convenience fields null. -/
theorem tideEvents_no_day_samples_empty_witness :
    tideEventsForDate ["2025-06-01T00:00"] [none] "2025-06-01" =
      ⟨[], [], none, none, none, none⟩ :=
  tideEvents_no_day_samples_empty ["2025-06-01T00:00"] [none] "2025-06-01"
    (by
      intro i hi _
      have : i = 0 := by simpa using hi
      subst this
      rfl)

/-! ### C7: monotone day -/

/-- A `filterMap` over `range n` whose function can only fire at one index
`x`, with one fixed value `v`, yields `[]` or `[v]`. -/
theorem filterMap_range_subsingleton {α : Type} (n : ℕ) (g : ℕ → Option α) (x : ℕ) (v : α)
    (hg : ∀ i, i < n → ∀ w, g i = some w → i = x ∧ w = v) :
    (List.range n).filterMap g = [] ∨ (List.range n).filterMap g = [v] := by
  induction n with
  | zero => exact Or.inl rfl
  | succ m ih =>
    rw [List.range_succ, List.filterMap_append]
    have ih' := ih fun i hi w hw => hg i (by omega) w hw
    cases hgm : g m with
    | none =>
      rcases ih' with h | h <;> simp [h, hgm]
    | some w =>
      rcases hg m (by omega) w hgm with ⟨hmx, rfl⟩
      have hpre : (List.range m).filterMap g = [] := by
        rw [List.filterMap_eq_nil_iff]
        intro i hi
        cases hgi : g i with
        | none => rfl
        | some w' =>
          rcases hg i (by have := List.mem_range.mp hi; omega) w' hgi with ⟨hix, _⟩
          have := List.mem_range.mp hi
          omega
      right
      simp [hpre, hgm]

/-- The fallback maximum scan over a strictly increasing run picks the last
pair. -/
theorem foldMax_strict (f : ℕ → String × ℚ) :
    ∀ (m s : ℕ), 0 < m →
      (∀ i j, s ≤ i → i < j → j < s + m → (f i).2 < (f j).2) →
      foldMax ((List.range' s m).map f) =
        some ⟨(f (s + m - 1)).1, (f (s + m - 1)).2⟩ := by
  intro m
  induction m with
  | zero => omega
  | succ k ih =>
    intro s _ hstrict
    rcases Nat.eq_zero_or_pos k with rfl | hk
    · rw [List.range'_one]
      rfl
    · rw [List.range'_1_concat, List.map_append]
      have hmid := ih s hk fun i j hi hij hj => hstrict i j hi hij (by omega)
      rw [foldMax, List.foldl_append, ← foldMax, hmid]
      simp only [List.map_cons, List.map_nil, List.foldl_cons, List.foldl_nil]
      rw [if_pos (hstrict (s + k - 1) (s + k) (by omega) (by omega) (by omega))]
      rfl

/-- The fallback minimum scan over a strictly increasing run picks the first
pair. -/
theorem foldMin_strict (f : ℕ → String × ℚ) :
    ∀ (m s : ℕ), 0 < m →
      (∀ i j, s ≤ i → i < j → j < s + m → (f i).2 < (f j).2) →
      foldMin ((List.range' s m).map f) = some ⟨(f s).1, (f s).2⟩ := by
  intro m
  induction m with
  | zero => omega
  | succ k ih =>
    intro s _ hstrict
    rcases Nat.eq_zero_or_pos k with rfl | hk
    · rw [List.range'_one]
      rfl
    · rw [List.range'_1_concat, List.map_append]
      have hmid := ih s hk fun i j hi hij hj => hstrict i j hi hij (by omega)
      rw [foldMin, List.foldl_append, ← foldMin, hmid]
      simp only [List.map_cons, List.map_nil, List.foldl_cons, List.foldl_nil]
      rw [if_neg (not_lt_of_gt (hstrict s (s + k) (le_refl s) (by omega) (by omega)))]

/-- When the day-matching timestamps form the contiguous index window
`[a, b]` and those heights are all non-null, the fallback candidates are
exactly the day's (time, height) pairs in series order. -/
theorem dayPairs_window (times : List String) (heights : List (Option ℚ)) (pfx : String)
    (a b : ℕ) (H : ℕ → ℚ) (hab : a ≤ b) (hb : b < times.length)
    (hdate : ∀ i, i < times.length →
      (jsStartsWith (times.getD i "") pfx = true ↔ a ≤ i ∧ i ≤ b))
    (hH : ∀ i, a ≤ i → i ≤ b → heights.getD i none = some (H i)) :
    dayPairs times heights pfx =
      (List.range' a (b + 1 - a)).map fun i => (times.getD i "", H i) := by
  have e1 : List.range' 0 a ++ List.range' a (b + 1 - a) = List.range' 0 (b + 1) := by
    have h := List.range'_append_1 0 a (b + 1 - a)
    rw [Nat.zero_add] at h
    rw [h]
    congr 1
    omega
  have e2 : List.range' 0 (b + 1) ++ List.range' (b + 1) (times.length - (b + 1)) =
      List.range' 0 times.length := by
    have h := List.range'_append_1 0 (b + 1) (times.length - (b + 1))
    rw [Nat.zero_add] at h
    rw [h]
    congr 1
    omega
  rw [dayPairs, List.range_eq_range', ← e2, ← e1]
  rw [List.filterMap_append, List.filterMap_append]
  have hA : (List.range' 0 a).filterMap (fun i =>
      if jsStartsWith (times.getD i "") pfx = true then
        (heights.getD i none).map fun h => (times.getD i "", h)
      else none) = [] := by
    rw [List.filterMap_eq_nil_iff]
    intro i hi
    rcases List.mem_range'_1.mp hi with ⟨_, hia⟩
    rw [if_neg]
    intro hsw
    rcases (hdate i (by omega)).mp hsw with ⟨hai, _⟩
    omega
  have hC : (List.range' (b + 1) (times.length - (b + 1))).filterMap (fun i =>
      if jsStartsWith (times.getD i "") pfx = true then
        (heights.getD i none).map fun h => (times.getD i "", h)
      else none) = [] := by
    rw [List.filterMap_eq_nil_iff]
    intro i hi
    rcases List.mem_range'_1.mp hi with ⟨hib, hilt⟩
    rw [if_neg]
    intro hsw
    rcases (hdate i (by omega)).mp hsw with ⟨_, hib'⟩
    omega
  have hB : (List.range' a (b + 1 - a)).filterMap (fun i =>
      if jsStartsWith (times.getD i "") pfx = true then
        (heights.getD i none).map fun h => (times.getD i "", h)
      else none) = (List.range' a (b + 1 - a)).map fun i => (times.getD i "", H i) := by
    have hcong : ∀ x ∈ List.range' a (b + 1 - a),
        (if jsStartsWith (times.getD x "") pfx = true then
          (heights.getD x none).map fun h => (times.getD x "", h)
        else none) = (some ∘ fun i => (times.getD i "", H i)) x := by
      intro i hi
      rcases List.mem_range'_1.mp hi with ⟨hai, hilt⟩
      rw [if_pos ((hdate i (by omega)).mpr ⟨hai, by omega⟩), hH i hai (by omega)]
      rfl
    rw [List.filterMap_congr hcong, List.filterMap_eq_map]
  rw [hA, hB, hC]
  simp

/-- On a strictly increasing day window, the interior high scan detects at
most the last day sample (as a boundary extremum against the next padding
sample). -/
theorem scanHighs_window (times : List String) (heights : List (Option ℚ)) (pfx : String)
    (a b : ℕ) (H : ℕ → ℚ) (hab : a ≤ b) (hb : b < times.length)
    (hdate : ∀ i, i < times.length →
      (jsStartsWith (times.getD i "") pfx = true ↔ a ≤ i ∧ i ≤ b))
    (hH : ∀ i, a ≤ i → i ≤ b → heights.getD i none = some (H i))
    (hmono : ∀ i, a ≤ i → i < b → H i < H (i + 1)) :
    scanHighs times heights pfx = [] ∨
      scanHighs times heights pfx = [⟨times.getD b "", H b⟩] := by
  rw [scanHighs]
  refine filterMap_range_subsingleton times.length (scanHighBody times heights pfx) b
    ⟨times.getD b "", H b⟩ ?_
  intro i hilen w hw
  unfold scanHighBody at hw
  by_cases hb1 : 1 ≤ i ∧ i + 1 < times.length
  · rw [if_pos hb1] at hw
    by_cases hsw : jsStartsWith (times.getD i "") pfx = true
    · rw [if_pos hsw] at hw
      rcases (hdate i hilen).mp hsw with ⟨hai, hib⟩
      rw [hH i hai hib] at hw
      cases h0e : heights.getD (i - 1) none with
      | none =>
        rw [h0e] at hw
        cases hw
      | some h0 =>
        cases h2e : heights.getD (i + 1) none with
        | none =>
          rw [h0e, h2e] at hw
          cases hw
        | some h2 =>
          rw [h0e, h2e] at hw
          dsimp only at hw
          by_cases hcond : h0 < H i ∧ h2 < H i
          · rw [if_pos hcond] at hw
            injection hw with hw
            have hieq : i = b := by
              by_contra hne
              have hlt : i < b := by omega
              have h2H : h2 = H (i + 1) := by
                have := hH (i + 1) (by omega) (by omega)
                rw [h2e] at this
                injection this
              have := hmono i hai hlt
              rw [← h2H] at this
              exact absurd hcond.2 (not_lt_of_gt this)
            subst hieq
            exact ⟨rfl, hw.symm⟩
          · rw [if_neg hcond] at hw
            cases hw
    · rw [if_neg hsw] at hw
      cases hw
  · rw [if_neg hb1] at hw
    cases hw

/-- On a strictly increasing day window, the interior low scan detects at
most the first day sample (as a boundary extremum against the previous
padding sample). -/
theorem scanLows_window (times : List String) (heights : List (Option ℚ)) (pfx : String)
    (a b : ℕ) (H : ℕ → ℚ) (hab : a ≤ b) (hb : b < times.length)
    (hdate : ∀ i, i < times.length →
      (jsStartsWith (times.getD i "") pfx = true ↔ a ≤ i ∧ i ≤ b))
    (hH : ∀ i, a ≤ i → i ≤ b → heights.getD i none = some (H i))
    (hmono : ∀ i, a ≤ i → i < b → H i < H (i + 1)) :
    scanLows times heights pfx = [] ∨
      scanLows times heights pfx = [⟨times.getD a "", H a⟩] := by
  rw [scanLows]
  refine filterMap_range_subsingleton times.length (scanLowBody times heights pfx) a
    ⟨times.getD a "", H a⟩ ?_
  intro i hilen w hw
  unfold scanLowBody at hw
  by_cases hb1 : 1 ≤ i ∧ i + 1 < times.length
  · rw [if_pos hb1] at hw
    by_cases hsw : jsStartsWith (times.getD i "") pfx = true
    · rw [if_pos hsw] at hw
      rcases (hdate i hilen).mp hsw with ⟨hai, hib⟩
      rw [hH i hai hib] at hw
      cases h0e : heights.getD (i - 1) none with
      | none =>
        rw [h0e] at hw
        cases hw
      | some h0 =>
        cases h2e : heights.getD (i + 1) none with
        | none =>
          rw [h0e, h2e] at hw
          cases hw
        | some h2 =>
          rw [h0e, h2e] at hw
          dsimp only at hw
          by_cases hcond : H i < h0 ∧ H i < h2
          · rw [if_pos hcond] at hw
            injection hw with hw
            have hieq : i = a := by
              by_contra hne
              have hlt : a < i := by omega
              have h0H : h0 = H (i - 1) := by
                have := hH (i - 1) (by omega) (by omega)
                rw [h0e] at this
                injection this
              have hmi : H (i - 1) < H i := by
                have := hmono (i - 1) (by omega) (by omega)
                rw [show i - 1 + 1 = i by omega] at this
                exact this
              rw [h0H] at hcond
              exact absurd hcond.1 (not_lt_of_gt hmi)
            subst hieq
            exact ⟨rfl, hw.symm⟩
          · rw [if_neg hcond] at hw
            cases hw
    · rw [if_neg hsw] at hw
      cases hw
  · rw [if_neg hb1] at hw
    cases hw

/-- C7: on a padded series whose day-matching timestamps form a contiguous
index window with all heights present and strictly increasing, the detector
returns exactly one high — the last (maximum) day sample — and exactly one
low — the first (minimum) day sample — not an empty bundle (heights carry
the 3-decimal rounding applied to every returned event). -/
theorem tideEvents_monotone_day :
    ∀ (times : List String) (heights : List (Option ℚ)) (date : String)
      (a b : ℕ) (H : ℕ → ℚ),
      a ≤ b → b < times.length →
      (∀ i, i < times.length →
        (jsStartsWith (times.getD i "") (date ++ "T") = true ↔ a ≤ i ∧ i ≤ b)) →
      (∀ i, a ≤ i → i ≤ b → heights.getD i none = some (H i)) →
      (∀ i, a ≤ i → i < b → H i < H (i + 1)) →
      (tideEventsForDate times heights date).highs =
        [⟨times.getD b "", fix3 (H b)⟩] ∧
      (tideEventsForDate times heights date).lows =
        [⟨times.getD a "", fix3 (H a)⟩] := by
  intro times heights date a b H hab hb hdate hH hmono
  have hstrict : ∀ j, j ≤ b → ∀ i, a ≤ i → i < j → H i < H j := by
    intro j
    induction j with
    | zero =>
      intro _ i _ h
      omega
    | succ k ih =>
      intro hkb i hai hik
      rcases Nat.lt_succ_iff_lt_or_eq.mp hik with h | h
      · exact lt_trans (ih (by omega) i hai h) (hmono k (by omega) (by omega))
      · subst h
        exact hmono i hai (by omega)
  have hdp := dayPairs_window times heights (date ++ "T") a b H hab hb hdate hH
  have hf : ∀ i j, a ≤ i → i < j → j < a + (b + 1 - a) →
      ((fun i => (times.getD i "", H i)) i).2 < ((fun i => (times.getD i "", H i)) j).2 := by
    intro i j hai hij hj
    exact hstrict j (by omega) i hai hij
  have hmax := foldMax_strict (fun i => (times.getD i "", H i)) (b + 1 - a) a (by omega) hf
  have hmin := foldMin_strict (fun i => (times.getD i "", H i)) (b + 1 - a) a (by omega) hf
  rw [show a + (b + 1 - a) - 1 = b by omega] at hmax
  have hSH := scanHighs_window times heights (date ++ "T") a b H hab hb hdate hH hmono
  have hSL := scanLows_window times heights (date ++ "T") a b H hab hb hdate hH hmono
  have hres : tideEventsForDate times heights date =
      buildTideSummary [⟨times.getD b "", H b⟩] [⟨times.getD a "", H a⟩] := by
    rcases hSH with h1 | h1 <;> rcases hSL with h2 | h2
    · simp only [tideEventsForDate, h1, h2, hdp, hmax, hmin, List.isEmpty_nil,
        Bool.or_self, if_true, Option.toList_some]
    · simp only [tideEventsForDate, h1, h2, hdp, hmax, hmin, List.isEmpty_nil,
        List.isEmpty_cons, Bool.true_or, if_true, Option.toList_some]
    · simp only [tideEventsForDate, h1, h2, hdp, hmax, hmin, List.isEmpty_nil,
        List.isEmpty_cons, Bool.or_true, if_true, Option.toList_some]
    · simp only [tideEventsForDate, h1, h2, List.isEmpty_cons, Bool.or_self,
        Bool.false_eq_true, if_false, List.mergeSort_singleton, List.take_succ_cons,
        List.take_nil]
  rw [hres]
  constructor <;> simp [buildTideSummary]

/-- C7 witness: a one-day padded series (one hour of the previous day, two
increasing day samples, one hour of the next day) yields exactly the last
day sample as the high and the first as the low. -/
theorem tideEvents_monotone_day_witness :
    (tideEventsForDate
        ["2025-05-31T23:00", "2025-06-01T00:00", "2025-06-01T01:00", "2025-06-02T00:00"]
        [some 0, some 1, some 2, some 0] "2025-06-01").highs =
      [⟨"2025-06-01T01:00", fix3 2⟩] ∧
    (tideEventsForDate
        ["2025-05-31T23:00", "2025-06-01T00:00", "2025-06-01T01:00", "2025-06-02T00:00"]
        [some 0, some 1, some 2, some 0] "2025-06-01").lows =
      [⟨"2025-06-01T00:00", fix3 1⟩] :=
  tideEvents_monotone_day
    ["2025-05-31T23:00", "2025-06-01T00:00", "2025-06-01T01:00", "2025-06-02T00:00"]
    [some 0, some 1, some 2, some 0] "2025-06-01" 1 2
    (fun i => if i = 1 then 1 else if i = 2 then 2 else 0)
    (by omega) (by norm_num)
    (by decide)
    (by
      intro i h1 h2
      have h : i = 1 ∨ i = 2 := by omega
      rcases h with rfl | rfl <;> rfl)
    (by
      intro i h1 h2
      have h : i = 1 := by omega
      subst h
      show (1 : ℚ) < 2
      norm_num)

end SwellRecap
